import Mathlib

/-!
Verification of the promotion-resolution and timer engine of the
`hairqare-timer.js` widget.  Each section embeds one component of the
source file as executable Lean definitions, and the theorems at the end
settle the specification claims about those components.

JavaScript values that the merge routine manipulates are modelled by the
`JVal` tree below; objects are association lists in key order, and arrays
keep their elements in order.  `null` is its own constructor, matching
the source's explicit `!== null` checks.
-/

namespace HairqareTimer

/-- Model of the JavaScript values handled by `mergeConfig`:
strings, numbers, booleans, `null`, arrays and plain objects. -/
inductive JVal where
  | str : String → JVal
  | num : Int → JVal
  | bool : Bool → JVal
  | null : JVal
  | arr : List JVal → JVal
  | obj : List (String × JVal) → JVal
deriving Repr, BEq

/-- `typeof v === 'object' && v !== null` from the source: arrays and
objects are composite, `null` and scalars are not. -/
def JVal.isComposite : JVal → Bool
  | .obj _ => true
  | .arr _ => true
  | _ => false

/-- Whether a value is a JavaScript array. -/
def JVal.isArr : JVal → Bool
  | .arr _ => true
  | _ => false

/-- The own enumerable key/value pairs of a value, as iterated by
`for (const key in userConfig)` and produced by spreading with
`\x7b...defaultConfig\x7d`: objects give their entries, arrays give their
elements keyed by their decimal index, scalars give nothing. -/
def toPairs : JVal → List (String × JVal)
  | .obj kvs => kvs
  | .arr xs => (List.enum xs).map (fun p => (toString p.1, p.2))
  | _ => []

/-- `result[key]` lookup on the association-list model of an object. -/
def lookupJ : List (String × JVal) → String → Option JVal
  | [], _ => none
  | (k', v) :: rest, k => if k' = k then some v else lookupJ rest k

/-- `result[key] = v` assignment: replaces the first binding of the key,
or appends when the key is absent. -/
def setKey : List (String × JVal) → String → JVal → List (String × JVal)
  | [], k, v => [(k, v)]
  | (k', v') :: rest, k, v =>
      if k' = k then (k, v) :: rest else (k', v') :: setKey rest k v

mutual
/-- Size of a `JVal`, used as the termination measure for `mergePairs`. -/
def sizeJ : JVal → Nat
  | .str _ => 1
  | .num _ => 1
  | .bool _ => 1
  | .null => 1
  | .arr xs => 1 + sizeA xs
  | .obj kvs => 1 + sizeO kvs

/-- Size of a list of values. -/
def sizeA : List JVal → Nat
  | [] => 0
  | x :: xs => sizeJ x + 1 + sizeA xs

/-- Size of a list of key/value pairs, counting only the values. -/
def sizeO : List (String × JVal) → Nat
  | [] => 0
  | kv :: kvs => sizeJ kv.2 + 1 + sizeO kvs
end

/-- Auxiliary size computation: re-keying the entries of an array does not
change the measured size of its pair list. -/
def sizeO_enumFrom_map (xs : List JVal) :
    ∀ n, sizeO ((List.enumFrom n xs).map (fun p => (toString p.1, p.2))) = sizeA xs := by
  induction xs with
  | nil => intro n; rfl
  | cons x xs ih =>
      intro n
      simp only [List.enumFrom, List.map, sizeA, sizeO]
      rw [ih (n + 1)]

/-- The pair list of a value is strictly smaller than the value itself. -/
def sizeO_toPairs_lt (v : JVal) : sizeO (toPairs v) < sizeJ v := by
  cases v with
  | str s => simp [toPairs, sizeJ, sizeO]
  | num n => simp [toPairs, sizeJ, sizeO]
  | bool b => simp [toPairs, sizeJ, sizeO]
  | null => simp [toPairs, sizeJ, sizeO]
  | arr xs =>
      simp only [toPairs, sizeJ, List.enum]
      rw [sizeO_enumFrom_map xs 0]
      omega
  | obj kvs => simp only [toPairs, sizeJ]; omega

/-- Core of `mergeConfig`: starting from the spread copy of the base
(`acc`), walk the override's own keys in order; when both the current
value and the override value are non-null composites, recurse (the
recursive result is always a plain object), otherwise the override value
replaces the current one. -/
def mergePairs (acc : List (String × JVal)) : List (String × JVal) → List (String × JVal)
  | [] => acc
  | (k, v) :: rest =>
      match lookupJ acc k with
      | some cur =>
          if cur.isComposite && v.isComposite then
            mergePairs (setKey acc k (JVal.obj (mergePairs (toPairs cur) (toPairs v)))) rest
          else
            mergePairs (setKey acc k v) rest
      | none => mergePairs (setKey acc k v) rest
termination_by ov => sizeO ov
decreasing_by
  all_goals simp only [sizeO]
  all_goals (have h := sizeO_toPairs_lt v; omega)

/-- `mergeConfig(defaultConfig, userConfig)` from the source: a fresh
object seeded with the base's entries, updated per override key. -/
def mergeConfig (base override : JVal) : JVal :=
  .obj (mergePairs (toPairs base) (toPairs override))

/-- Substring test at some position, modelling `String.prototype.includes`. -/
def containsSub (hay pat : List Char) : Bool :=
  match hay with
  | [] => pat.isEmpty
  | _ :: rest => pat.isPrefixOf hay || containsSub rest pat

/-- `shouldShowOnCurrentURL` from the source, on the array of URL pattern
substrings the code expects: show everywhere when no patterns are
configured, else show when some pattern occurs in the current URL. -/
def shouldShowOnCurrentURL (urlPatterns : Option (List String)) (currentURL : String) : Bool :=
  match urlPatterns with
  | none => true
  | some ps =>
      if ps.length = 0 then true
      else ps.any (fun p => containsSub currentURL.toList p.toList)

/-! ### CSV parsing (`parseCSV`) -/

/-- Whitespace removed by `String.prototype.trim` (ASCII portion). -/
def isWS (c : Char) : Bool :=
  c = ' ' || c = '\t' || c = '\n' || c = '\r' || c = '\x0b' || c = '\x0c'

/-- Trim surrounding whitespace from a character list, as `trim()` does. -/
def trimCL (l : List Char) : List Char :=
  (l.dropWhile isWS).rdropWhile isWS

/-- `trim()` on strings. -/
def trimS (s : String) : String :=
  String.mk (trimCL s.toList)

/-- `text.split('\n')`: newline-separated segments, empty segments kept. -/
def splitOnNL : List Char → List (List Char)
  | [] => [[]]
  | c :: rest =>
      if c = '\n' then [] :: splitOnNL rest
      else
        match splitOnNL rest with
        | r :: rs => (c :: r) :: rs
        | [] => [[c]]

/-- Character scan of one CSV line: a `"` toggles the quoted flag (and is
dropped), a comma outside quotes ends the current field, anything else is
appended to the current field; the last field is pushed at end of line. -/
def parseLineAux : List Char → Bool → List Char → List (List Char)
  | [], _, cur => [cur]
  | c :: rest, inQuote, cur =>
      if c = '"' then parseLineAux rest (!inQuote) cur
      else if c = ',' && !inQuote then cur :: parseLineAux rest inQuote []
      else parseLineAux rest inQuote (cur ++ [c])

/-- One line of the CSV, each extracted field trimmed. -/
def parseLineCL (line : List Char) : List String :=
  (parseLineAux line false []).map (fun f => String.mk (trimCL f))

/-- The row filter from the source: keep rows that are non-empty and whose
first field is non-empty after trimming. -/
def keepRow (row : List String) : Bool :=
  match row with
  | [] => false
  | f :: _ => trimS f != ""

/-- `parseCSV` from the source: split on newlines, scan each line, then
drop rows whose first field trims to the empty string. -/
def parseCSV (text : String) : List (List String) :=
  ((splitOnNL text.toList).map parseLineCL).filter keepRow

/-! ### Promo data fetching and caching (`fetchPromoData`) -/

/-- `getFallbackPromoData` from the source: the built-in static row set. -/
def getFallbackPromoData : List (List String) :=
  [["Country", "PromoText", "StartDate", "EndDate"],
   ["AU", "Australia Day Special", "2025-01-26", "2025-01-26"],
   ["DE", "German Unity Day Special", "2025-10-03", "2025-10-03"],
   ["US", "4th of July Special", "2025-07-04", "2025-07-04"]]

/-- The cache object: `promoData` rows and `lastFetched` epoch
milliseconds, both `null` before the first successful fetch. -/
structure PromoCache where
  promoData : Option (List (List String))
  lastFetched : Option Int
deriving Repr, DecidableEq

/-- Outcome of the network request, when one is attempted: `ok body` for
a success response with the given text, `err` for a non-success status or
a transport failure (both reach the same `catch`). -/
inductive FetchResult where
  | ok : String → FetchResult
  | err : FetchResult
deriving Repr, DecidableEq

/-- The freshness guard from the source:
`this.cache.promoData && this.cache.lastFetched` followed by
`Date.now() - this.cache.lastFetched < 3600000`.  A stored timestamp of
`0` is falsy in JavaScript, hence the `t ≠ 0` conjunct. -/
def cacheFresh (cache : PromoCache) (now : Int) : Bool :=
  match cache.promoData, cache.lastFetched with
  | some _, some t => t ≠ 0 && now - t < 3600000
  | _, _ => false

/-- The fetch-or-fallback branch of `fetchPromoData`, reached when the
cache is not fresh.  Returns the resolved rows, the cache after the call,
and whether a network request was made. -/
def fetchBranch (cache : PromoCache) (now : Int) (url : Option String)
    (net : FetchResult) : List (List String) × PromoCache × Bool :=
  match url with
  | some u =>
      if u ≠ "" then
        match net with
        | .ok body =>
            let data := parseCSV body
            (data, ⟨some data, some now⟩, true)
        | .err => (getFallbackPromoData, cache, true)
      else (getFallbackPromoData, cache, false)
  | none => (getFallbackPromoData, cache, false)

/-- `fetchPromoData` from the source, as a function of the cache state,
the current time, the configured data-source URL (`none` when
`dataSource`/`dataSource.url` is absent, `some ""` when empty and falsy)
and the outcome the network would give if consulted.  The promise always
resolves; resolution is modelled by totality of this function. -/
def fetchPromoData (cache : PromoCache) (now : Int) (url : Option String)
    (net : FetchResult) : List (List String) × PromoCache × Bool :=
  if cacheFresh cache now then
    (cache.promoData.getD [], cache, false)
  else fetchBranch cache now url net

/-! ### Promo text selection (`getPromoText`) -/

/-- The scan from index 1 of `getPromoText`: first row whose field 0
equals the country code yields its field 1 (`none` models the JavaScript
`undefined` produced when a matching row has no second field); otherwise
the configured default text. -/
def promoLoop (countryCode defaultText : String) : List (List String) → Option String
  | [] => some defaultText
  | row :: rest =>
      if row.head? = some countryCode then row.get? 1
      else promoLoop countryCode defaultText rest

/-- `getPromoText` from the source.  `currentDate` is accepted but unused:
the date-range check is commented out in this version.  Absent data or a
lone header row yield the default text. -/
def getPromoText (defaultText countryCode : String) (currentDate : Int)
    (promoData : Option (List (List String))) : Option String :=
  match promoData with
  | none => some defaultText
  | some rows =>
      if rows.length ≤ 1 then some defaultText
      else promoLoop countryCode defaultText (rows.drop 1)

/-! ### Country resolution (`getCountry`) -/

/-- `getCountryFromHeader` from the source: JavaScript cannot read
response headers after page load, so it unconditionally returns `null`. -/
def getCountryFromHeader : Option String := none

/-- The well-known session-storage key holding the checkout payload. -/
def checkoutKey : String := "wc_stripe_checkout_fields"

/-- The marker substring looked for when scanning session entries. -/
def bcMarker : List Char := "billing_country".toList

/-- The literal part of the extraction pattern
`/"billing_country":\s*"([A-Z]\x7b2\x7d)"/`. -/
def bcPattern : List Char := "\"billing_country\":".toList

/-- `[A-Z]` character class. -/
def isUpperAZ (c : Char) : Bool := 'A' ≤ c && c ≤ 'Z'

/-- `\s` character class (ASCII portion plus no-break space). -/
def isSpaceRE (c : Char) : Bool :=
  c = ' ' || c = '\t' || c = '\n' || c = '\r' || c = '\x0b' || c = '\x0c' || c = '\u00A0'

/-- Attempt of the extraction pattern anchored at the current position:
the literal `"billing_country":`, then `\s*`, then a quoted pair of
capital letters; yields the captured two-letter group. -/
def matchBillingAt (cs : List Char) : Option String :=
  if bcPattern.isPrefixOf cs then
    match (cs.drop bcPattern.length).dropWhile isSpaceRE with
    | '"' :: a :: b :: '"' :: _ =>
        if isUpperAZ a && isUpperAZ b then some (String.mk [a, b]) else none
    | _ => none
  else none

/-- Leftmost match of the extraction pattern, as `String.prototype.match`
finds it: try each start position from the left. -/
def billingCountryMatchAux : List Char → Option String
  | [] => none
  | c :: rest =>
      match matchBillingAt (c :: rest) with
      | some r => some r
      | none => billingCountryMatchAux rest

/-- `value.match(/"billing_country":\s*"([A-Z]\x7b2\x7d)"/)`, returning
the captured group of the first match. -/
def billingCountryMatch (s : String) : Option String :=
  billingCountryMatchAux s.toList

/-- `sessionStorage.getItem`: the value stored under a key, if any. -/
def sessionGet : List (String × String) → String → Option String
  | [], _ => none
  | (k', v) :: rest, k => if k' = k then some v else sessionGet rest k

/-- The backup scan over all session entries in storage order: the first
truthy value containing the `billing_country` marker and matching the
extraction pattern yields its captured code. -/
def scanEntries : List (String × String) → Option String
  | [] => none
  | (_, v) :: rest =>
      if v ≠ "" && containsSub v.toList bcMarker then
        match billingCountryMatch v with
        | some c => some c
        | none => scanEntries rest
      else scanEntries rest

/-- The checkout-key block of `getCountryFromSessionStorage`.  `jsonOk v`
models whether `JSON.parse(v)` succeeds; the parsed value itself is never
used by the source.  The block yields a code only when the stored value
is truthy, parses as JSON, and the raw string matches the extraction
pattern; a parse failure is caught (and logged) and yields nothing. -/
def checkoutExtract (jsonOk : String → Bool)
    (storage : List (String × String)) : Option String :=
  match sessionGet storage checkoutKey with
  | some v =>
      if v ≠ "" then
        if jsonOk v then billingCountryMatch v else none
      else none
  | none => none

/-- `getCountryFromSessionStorage` from the source: the checkout-key
block, and in every case where it yields nothing (key absent, falsy
value, parse failure or pattern miss) the backup scan of all session
entries. -/
def getCountryFromSessionStorage (jsonOk : String → Bool)
    (storage : List (String × String)) : Option String :=
  match checkoutExtract jsonOk storage with
  | some c => some c
  | none => scanEntries storage

/-- JavaScript truthiness of a nullable string. -/
def truthy : Option String → Option String
  | some s => if s = "" then none else some s
  | none => none

/-- `getCountry` from the source, with the promise's resolution modelled
by totality: header signal first (always absent), then session storage,
then the fixed default `"US"`. -/
def getCountry (jsonOk : String → Bool) (storage : List (String × String)) : String :=
  match truthy getCountryFromHeader with
  | some c => c
  | none =>
      match truthy (getCountryFromSessionStorage jsonOk storage) with
      | some c => c
      | none => "US"

/-! ### Timer engine (`startTimer` / `handleTimerExpiration`) -/

/-- The timer fields of `this.state`.  Values are integers so that the
absence of negative values is a provable property rather than a typing
artifact. -/
structure TimerState where
  minutes : Int
  seconds : Int
deriving Repr, DecidableEq

/-- The `timerSettings` branch of the configuration. -/
structure TimerSettings where
  initialMinutes : Int
  initialSeconds : Int
  restartAfterMinutes : Nat
deriving Repr, DecidableEq

/-- One firing of the `setInterval` callback in `startTimer`: decrement
seconds when positive; else roll a minute over to 59 seconds; else leave
the state untouched and report expiration (the callback then calls
`handleTimerExpiration`). -/
def tick (st : TimerState) : TimerState × Bool :=
  if st.seconds > 0 then (⟨st.minutes, st.seconds - 1⟩, false)
  else if st.minutes > 0 then (⟨st.minutes - 1, 59⟩, false)
  else (st, true)

/-- `String(n).padStart(2, '0')`. -/
def padStart2 (s : String) : String :=
  if s.length ≥ 2 then s
  else String.mk (List.replicate (2 - s.length) '0' ++ s.toList)

/-- `updateTimerDisplay`: two zero-padded fields joined by a colon. -/
def formatTime (st : TimerState) : String :=
  padStart2 (toString st.minutes) ++ ":" ++ padStart2 (toString st.seconds)

/-- `handleTimerExpiration` from the source: schedule, after
`restartAfterMinutes * 60 * 1000` milliseconds, a one-shot reset of the
state to the configured initial minutes and seconds.  Returned as the
scheduled delay and the state the reset will install. -/
def handleTimerExpiration (cfg : TimerSettings) : Nat × TimerState :=
  (cfg.restartAfterMinutes * 60 * 1000, ⟨cfg.initialMinutes, cfg.initialSeconds⟩)

/-- The scheduler state of the running engine: the timer fields plus the
remaining delays (in milliseconds) of the pending one-shot resets.  The
periodic interval installed by `startTimer` is never cleared outside
`startTimer` itself, so it is implicitly always active. -/
structure SysState where
  timer : TimerState
  pending : List Nat
deriving Repr, DecidableEq

/-- Pending timeouts whose remaining delay is within the elapsed second
fire, each setting the timer to the configured initial values; the rest
age by 1000 ms. -/
def fireDueResets (cfg : TimerSettings) (st : SysState) : SysState :=
  ⟨if st.pending.any (fun d => d ≤ 1000) then
      ⟨cfg.initialMinutes, cfg.initialSeconds⟩
    else st.timer,
   (st.pending.filter (fun d => ¬ d ≤ 1000)).map (fun d => d - 1000)⟩

/-- The interval callback: apply `tick`; on expiration,
`handleTimerExpiration` schedules one more one-shot reset. -/
def intervalTick (cfg : TimerSettings) (st : SysState) : SysState :=
  let t := tick st.timer
  ⟨t.1, if t.2 then st.pending ++ [(handleTimerExpiration cfg).1] else st.pending⟩

/-- One elapsed second of the event loop at 1-second granularity: due
one-shot resets fire, then the periodic interval fires.  Translated from
the scheduling calls in `startTimer` and `handleTimerExpiration`. -/
def step (cfg : TimerSettings) (st : SysState) : SysState :=
  intervalTick cfg (fireDueResets cfg st)

/-- Keys of an object model are pairwise distinct, as they are for a real
JavaScript object. -/
def keysNodup (l : List (String × JVal)) : Prop :=
  (l.map Prod.fst).Nodup

/-- A consequence of claim C4's description of `resolve()`: stage (1) is
the fixed header signal, stage (2) extracts from the well-known checkout
key when it is present — scanning the other session entries only when
that key is absent — and stage (3) is the constant default; hence two
storages that agree on the (present) checkout value must resolve to the
same country, whatever the other entries hold. -/
def resolveDependsOnlyOnCheckoutValue : Prop :=
  ∀ (jsonOk : String → Bool) (st1 st2 : List (String × String)) (v : String),
    sessionGet st1 checkoutKey = some v → sessionGet st2 checkoutKey = some v →
    getCountry jsonOk st1 = getCountry jsonOk st2

/-!
## Theorems

Helper lemmas first, then one theorem per specification claim (with a
closed witness instantiation for every theorem that carries hypotheses).
-/

/-- Unfolding `mergePairs` on an empty override. -/
theorem mergePairs_nil (acc : List (String × JVal)) : mergePairs acc [] = acc := by
  simp [mergePairs]

/-- Unfolding `mergePairs` on one override entry. -/
theorem mergePairs_cons (acc : List (String × JVal)) (k : String) (v : JVal)
    (rest : List (String × JVal)) :
    mergePairs acc ((k, v) :: rest) =
      match lookupJ acc k with
      | some cur =>
          if cur.isComposite && v.isComposite then
            mergePairs (setKey acc k (JVal.obj (mergePairs (toPairs cur) (toPairs v)))) rest
          else mergePairs (setKey acc k v) rest
      | none => mergePairs (setKey acc k v) rest := by
  rw [mergePairs]


/-- `mergePairs` branch: key present, both sides composite. -/
theorem mergePairs_cons_comp (acc : List (String × JVal)) (k : String) (v cur : JVal)
    (rest : List (String × JVal)) (hcur : lookupJ acc k = some cur)
    (hcomp : (cur.isComposite && v.isComposite) = true) :
    mergePairs acc ((k, v) :: rest) =
      mergePairs (setKey acc k (JVal.obj (mergePairs (toPairs cur) (toPairs v)))) rest := by
  rw [mergePairs_cons, hcur]
  simp [hcomp]

/-- `mergePairs` branch: key present, at least one side non-composite. -/
theorem mergePairs_cons_flat (acc : List (String × JVal)) (k : String) (v cur : JVal)
    (rest : List (String × JVal)) (hcur : lookupJ acc k = some cur)
    (hcomp : (cur.isComposite && v.isComposite) = false) :
    mergePairs acc ((k, v) :: rest) = mergePairs (setKey acc k v) rest := by
  rw [mergePairs_cons, hcur]
  simp [hcomp]

/-- `mergePairs` branch: key absent from the accumulator. -/
theorem mergePairs_cons_new (acc : List (String × JVal)) (k : String) (v : JVal)
    (rest : List (String × JVal)) (hcur : lookupJ acc k = none) :
    mergePairs acc ((k, v) :: rest) = mergePairs (setKey acc k v) rest := by
  rw [mergePairs_cons, hcur]

/-- Assignment then lookup of the same key. -/
theorem lookupJ_setKey_self (l : List (String × JVal)) (k : String) (v : JVal) :
    lookupJ (setKey l k v) k = some v := by
  induction l with
  | nil => simp [setKey, lookupJ]
  | cons kv rest ih =>
      obtain ⟨k', v'⟩ := kv
      by_cases h : k' = k
      · subst h; simp [setKey, lookupJ]
      · simp [setKey, lookupJ, h, ih]

/-- Assignment leaves lookups of other keys unchanged. -/
theorem lookupJ_setKey_ne (l : List (String × JVal)) (k k' : String) (v : JVal)
    (h : k ≠ k') : lookupJ (setKey l k' v) k = lookupJ l k := by
  have h' : ¬ k' = k := fun hh => h hh.symm
  induction l with
  | nil => simp [setKey, lookupJ, h']
  | cons kv rest ih =>
      obtain ⟨k'', v''⟩ := kv
      by_cases h2 : k'' = k'
      · subst h2
        simp [setKey, lookupJ, h']
      · by_cases h3 : k'' = k
        · subst h3; simp [setKey, lookupJ, h2]
        · simp [setKey, lookupJ, h2, h3, ih]

/-- Case split on one `mergePairs` step: whatever branch is taken, the new
accumulator is `setKey acc k w` for some value `w`. -/
theorem mergePairs_cons_exists (acc : List (String × JVal)) (k : String) (v : JVal)
    (rest : List (String × JVal)) :
    ∃ w, mergePairs acc ((k, v) :: rest) = mergePairs (setKey acc k w) rest ∧
      w = (match lookupJ acc k with
           | some cur =>
               if (cur.isComposite && v.isComposite) = true then
                 JVal.obj (mergePairs (toPairs cur) (toPairs v))
               else v
           | none => v) := by
  cases hcur : lookupJ acc k with
  | none => exact ⟨v, mergePairs_cons_new acc k v rest hcur, rfl⟩
  | some cur =>
      cases hcomp : (cur.isComposite && v.isComposite) with
      | true =>
          refine ⟨JVal.obj (mergePairs (toPairs cur) (toPairs v)), ?_, by simp [hcomp]⟩
          exact mergePairs_cons_comp acc k v cur rest hcur hcomp
      | false =>
          exact ⟨v, mergePairs_cons_flat acc k v cur rest hcur hcomp, by simp [hcomp]⟩

/-- Merging entries none of which bind `k` leaves lookups of `k`
unchanged. -/
theorem mergePairs_lookupJ_nomem (ov : List (String × JVal)) (acc : List (String × JVal))
    (k : String) (h : ∀ p ∈ ov, p.1 ≠ k) :
    lookupJ (mergePairs acc ov) k = lookupJ acc k := by
  induction ov generalizing acc with
  | nil => rw [mergePairs_nil]
  | cons kv rest ih =>
      obtain ⟨k', v'⟩ := kv
      have hk : k' ≠ k := h (k', v') (by simp)
      have hne : k ≠ k' := fun hh => hk hh.symm
      have hrest : ∀ p ∈ rest, p.1 ≠ k := fun p hp => h p (by simp [hp])
      obtain ⟨w, hw, -⟩ := mergePairs_cons_exists acc k' v' rest
      rw [hw, ih _ hrest, lookupJ_setKey_ne _ _ _ _ hne]

/-- `lookupJ` misses a key bound by no entry. -/
theorem lookupJ_eq_none (l : List (String × JVal)) (k : String)
    (h : ∀ p ∈ l, p.1 ≠ k) : lookupJ l k = none := by
  induction l with
  | nil => rfl
  | cons kv rest ih =>
      obtain ⟨k', v'⟩ := kv
      have h1 : ¬ k' = k := h (k', v') (by simp)
      simp only [lookupJ, if_neg h1]
      exact ih fun p hp => h p (by simp [hp])

/-- Per-key characterisation of `mergePairs` for overrides with distinct
keys: an overridden key holds the recursive merge when both sides are
composite, the override value otherwise; other keys are looked up in the
accumulator. -/
theorem mergePairs_lookupJ (ov : List (String × JVal)) (acc : List (String × JVal))
    (k : String) (ho : keysNodup ov) :
    lookupJ (mergePairs acc ov) k =
      match lookupJ ov k with
      | some v =>
          match lookupJ acc k with
          | some cur =>
              some (if (cur.isComposite && v.isComposite) = true then
                      JVal.obj (mergePairs (toPairs cur) (toPairs v))
                    else v)
          | none => some v
      | none => lookupJ acc k := by
  induction ov generalizing acc with
  | nil => rw [mergePairs_nil]; rfl
  | cons kv rest ih =>
      obtain ⟨k', v'⟩ := kv
      have ho' : keysNodup rest := by
        simpa [keysNodup] using (List.nodup_cons.mp ho).2
      have hnotin : k' ∉ rest.map Prod.fst := by
        simpa [keysNodup] using (List.nodup_cons.mp ho).1
      obtain ⟨w, hw, hwval⟩ := mergePairs_cons_exists acc k' v' rest
      rw [hw]
      by_cases hk : k = k'
      · subst hk
        have hrest : ∀ p ∈ rest, p.1 ≠ k := by
          intro p hp hq
          exact hnotin (hq ▸ List.mem_map_of_mem Prod.fst hp)
        rw [mergePairs_lookupJ_nomem rest _ k hrest, lookupJ_setKey_self]
        have hlk : lookupJ ((k, v') :: rest) k = some v' := by simp [lookupJ]
        rw [hlk, hwval]
        cases lookupJ acc k <;> rfl
      · have hne : k ≠ k' := hk
        have hlk : lookupJ ((k', v') :: rest) k = lookupJ rest k := by
          have : ¬ k' = k := fun hh => hne hh.symm
          simp [lookupJ, this]
        rw [hlk, ih _ ho', lookupJ_setKey_ne _ _ _ _ hne]


/-- C5: for every pair of configuration trees, each override key maps to
the recursive merge when both sides are non-null composites and to the
override value otherwise; keys only in the base are preserved; merging
with an empty override is the identity; and the two concrete examples of
the specification hold. -/
theorem c5_mergeConfig_correct (b o : List (String × JVal)) (k : String)
    (ho : keysNodup o) :
    (∀ v cur, lookupJ o k = some v → lookupJ b k = some cur →
        lookupJ (toPairs (mergeConfig (.obj b) (.obj o))) k =
          some (if (cur.isComposite && v.isComposite) = true then mergeConfig cur v else v))
    ∧ (∀ v, lookupJ o k = some v → lookupJ b k = none →
        lookupJ (toPairs (mergeConfig (.obj b) (.obj o))) k = some v)
    ∧ (lookupJ o k = none →
        lookupJ (toPairs (mergeConfig (.obj b) (.obj o))) k = lookupJ b k)
    ∧ (∀ C : List (String × JVal), mergeConfig (.obj C) (.obj []) = .obj C)
    ∧ mergeConfig (.obj [("a", .obj [("x", .num 1), ("y", .num 2)])])
        (.obj [("a", .obj [("x", .num 9)])])
      = .obj [("a", .obj [("x", .num 9), ("y", .num 2)])]
    ∧ mergeConfig (.obj [("a", .obj [("x", .num 1)])]) (.obj [("a", .num 5)])
      = .obj [("a", .num 5)] := by
  have H := mergePairs_lookupJ o b k ho
  refine ⟨?_, ?_, ?_, ?_, ?_, ?_⟩
  · intro v cur h1 h2
    show lookupJ (mergePairs b o) k = _
    rw [H, h1, h2]
    rfl
  · intro v h1 h2
    show lookupJ (mergePairs b o) k = _
    rw [H, h1, h2]
  · intro h1
    show lookupJ (mergePairs b o) k = _
    rw [H, h1]
  · intro C
    show JVal.obj (mergePairs C []) = _
    rw [mergePairs_nil]
  · simp [mergeConfig, toPairs, mergePairs_cons, mergePairs_nil, lookupJ, setKey,
      JVal.isComposite]
  · simp [mergeConfig, toPairs, mergePairs_cons, mergePairs_nil, lookupJ, setKey,
      JVal.isComposite]

/-- Witness for C5 at concrete configurations: both the nested-merge case
and the identity-merge case, with every hypothesis discharged. -/
theorem c5_mergeConfig_correct_witness :
    lookupJ (toPairs (mergeConfig (.obj [("a", .obj [("x", .num 1), ("y", .num 2)])])
        (.obj [("a", .obj [("x", .num 9)])]))) "a" =
      some (if ((JVal.obj [("x", .num 1), ("y", .num 2)]).isComposite &&
                (JVal.obj [("x", .num 9)]).isComposite) = true then
              mergeConfig (.obj [("x", .num 1), ("y", .num 2)]) (.obj [("x", .num 9)])
            else .obj [("x", .num 9)]) :=
  (c5_mergeConfig_correct [("a", .obj [("x", .num 1), ("y", .num 2)])]
      [("a", .obj [("x", .num 9)])] "a" (by simp [keysNodup])).1
    (.obj [("x", .num 9)]) (.obj [("x", .num 1), ("y", .num 2)]) rfl rfl

/-- C9: when base and override both hold arrays at a key, the merged
value at that key is the recursive merge of the two arrays, which is a
plain object (spread of the base array updated at the override's decimal
indices) and not an array; in particular two `urlPatterns` arrays merge
into an index-keyed object. -/
theorem c9_array_merge_not_array (b o : List (String × JVal)) (k : String)
    (xs ys : List JVal) (ho : keysNodup o)
    (hb : lookupJ b k = some (.arr xs)) (hoo : lookupJ o k = some (.arr ys)) :
    lookupJ (toPairs (mergeConfig (.obj b) (.obj o))) k =
      some (mergeConfig (.arr xs) (.arr ys))
    ∧ (mergeConfig (.arr xs) (.arr ys)).isArr = false
    ∧ (∃ kvs, mergeConfig (.arr xs) (.arr ys) = .obj kvs)
    ∧ mergeConfig (.obj [("urlPatterns", .arr [.str "checkout", .str "sale"])])
        (.obj [("urlPatterns", .arr [.str "cart"])])
      = .obj [("urlPatterns", .obj [("0", .str "cart"), ("1", .str "sale")])] := by
  refine ⟨?_, rfl, ⟨_, rfl⟩, ?_⟩
  · have H := mergePairs_lookupJ o b k ho
    show lookupJ (mergePairs b o) k = _
    rw [H, hoo, hb]
    rfl
  · simp [mergeConfig, toPairs, mergePairs_cons, mergePairs_nil, lookupJ, setKey,
      JVal.isComposite, List.enum, List.enumFrom]
    exact ⟨rfl, rfl⟩

/-- Witness for C9: the merged `urlPatterns` value for two concrete
pattern arrays is the recursively merged object, not an array. -/
theorem c9_array_merge_not_array_witness :
    lookupJ (toPairs (mergeConfig (.obj [("urlPatterns", .arr [.str "checkout"])])
        (.obj [("urlPatterns", .arr [.str "cart"])]))) "urlPatterns" =
      some (mergeConfig (.arr [.str "checkout"]) (.arr [.str "cart"]))
    ∧ (mergeConfig (.arr [.str "checkout"]) (.arr [.str "cart"])).isArr = false :=
  ⟨(c9_array_merge_not_array [("urlPatterns", .arr [.str "checkout"])]
      [("urlPatterns", .arr [.str "cart"])] "urlPatterns" [.str "checkout"] [.str "cart"]
      (by simp [keysNodup]) rfl rfl).1,
   (c9_array_merge_not_array [("urlPatterns", .arr [.str "checkout"])]
      [("urlPatterns", .arr [.str "cart"])] "urlPatterns" [.str "checkout"] [.str "cart"]
      (by simp [keysNodup]) rfl rfl).2.1⟩


/-- C1: one tick decrements seconds when positive, else rolls a minute
over to 59 seconds, else reports expiration leaving the state at (0,0);
the invariants 0 ≤ minutes and 0 ≤ seconds ≤ 59 are preserved and the two
rollover examples hold. -/
theorem c1_tick_step (m s : Int) (hm : 0 ≤ m) (hs0 : 0 ≤ s) (hs59 : s ≤ 59) :
    (0 < s → tick ⟨m, s⟩ = (⟨m, s - 1⟩, false))
    ∧ (s = 0 → 0 < m → tick ⟨m, s⟩ = (⟨m - 1, 59⟩, false))
    ∧ (m = 0 → s = 0 → tick ⟨m, s⟩ = (⟨0, 0⟩, true))
    ∧ (0 ≤ (tick ⟨m, s⟩).1.minutes ∧ 0 ≤ (tick ⟨m, s⟩).1.seconds
        ∧ (tick ⟨m, s⟩).1.seconds ≤ 59)
    ∧ tick ⟨0, 1⟩ = (⟨0, 0⟩, false)
    ∧ tick ⟨1, 0⟩ = (⟨0, 59⟩, false) := by
  refine ⟨?_, ?_, ?_, ?_, by decide, by decide⟩
  · intro h; simp [tick, h]
  · intro h1 h2; simp [tick, h1, h2]
  · intro h1 h2; simp [tick, h1, h2]
  · simp only [tick]
    split_ifs with h1 h2 <;> simp <;> omega

/-- Witness for C1 at the concrete state (0,1). -/
theorem c1_tick_step_witness : tick ⟨0, 1⟩ = (⟨0, 0⟩, false) :=
  (c1_tick_step 0 1 (by decide) (by decide) (by decide)).1 (by decide)

/-- C8: a tick at (0,0) leaves the state at (0,0) and reports expiration,
the rendered display at (0,0) is "00:00", the expiration handler
schedules a reset of `restartAfterMinutes * 60 * 1000` milliseconds to
the configured initial values, a due reset installs exactly those values,
and the expiration step leaves one pending reset with that delay. -/
theorem c8_expiration_display_restart (cfg : TimerSettings) (p : Nat) (rest : List Nat)
    (hp : p ≤ 1000) :
    tick ⟨0, 0⟩ = (⟨0, 0⟩, true)
    ∧ formatTime ⟨0, 0⟩ = "00:00"
    ∧ handleTimerExpiration cfg =
        (cfg.restartAfterMinutes * 60 * 1000, ⟨cfg.initialMinutes, cfg.initialSeconds⟩)
    ∧ (fireDueResets cfg ⟨⟨0, 0⟩, p :: rest⟩).timer =
        ⟨cfg.initialMinutes, cfg.initialSeconds⟩
    ∧ step cfg ⟨⟨0, 0⟩, []⟩ = ⟨⟨0, 0⟩, [cfg.restartAfterMinutes * 60 * 1000]⟩ := by
  refine ⟨by decide, by decide, rfl, ?_, ?_⟩
  · simp [fireDueResets, hp]
  · simp [step, fireDueResets, intervalTick, tick, handleTimerExpiration]

/-- Witness for C8 at the default configuration with a due reset. -/
theorem c8_expiration_display_restart_witness :
    tick ⟨0, 0⟩ = (⟨0, 0⟩, true)
    ∧ formatTime ⟨0, 0⟩ = "00:00"
    ∧ handleTimerExpiration ⟨28, 0, 1⟩ = (60000, ⟨28, 0⟩)
    ∧ (fireDueResets ⟨28, 0, 1⟩ ⟨⟨0, 0⟩, [1000]⟩).timer = ⟨28, 0⟩
    ∧ step ⟨28, 0, 1⟩ ⟨⟨0, 0⟩, []⟩ = ⟨⟨0, 0⟩, [60000]⟩ :=
  c8_expiration_display_restart ⟨28, 0, 1⟩ 1000 [] (by decide)

/-- Iterating `step` from the expired state with an empty reset queue for
at most one restart delay keeps the timer at (0,0) and accumulates one
pending reset per elapsed second, the i-th pending reset having aged by
the seconds elapsed since it was scheduled. -/
theorem step_iterate_expired (cfg : TimerSettings) (k : Nat)
    (hk : k ≤ 60 * cfg.restartAfterMinutes) :
    (step cfg)^[k] ⟨⟨0, 0⟩, []⟩ =
      ⟨⟨0, 0⟩, (List.range k).map
        (fun i => cfg.restartAfterMinutes * 60 * 1000 - (k - 1 - i) * 1000)⟩ := by
  induction k with
  | zero => simp
  | succ k ih =>
      have hk' : k ≤ 60 * cfg.restartAfterMinutes := Nat.le_of_succ_le hk
      rw [Function.iterate_succ_apply', ih hk']
      have hbig : ∀ x ∈ (List.range k).map
          (fun i => cfg.restartAfterMinutes * 60 * 1000 - (k - 1 - i) * 1000), ¬ x ≤ 1000 := by
        intro x hx
        obtain ⟨i, hi, rfl⟩ := List.mem_map.mp hx
        have hi' := List.mem_range.mp hi
        omega
      have hany : ((List.range k).map
          (fun i => cfg.restartAfterMinutes * 60 * 1000 - (k - 1 - i) * 1000)).any
            (fun d => d ≤ 1000) = false := by
        rw [List.any_eq_false]
        intro x hx
        simpa using hbig x hx
      have hfilter : ((List.range k).map
          (fun i => cfg.restartAfterMinutes * 60 * 1000 - (k - 1 - i) * 1000)).filter
            (fun d => ¬ d ≤ 1000) = (List.range k).map
            (fun i => cfg.restartAfterMinutes * 60 * 1000 - (k - 1 - i) * 1000) := by
        rw [List.filter_eq_self]
        intro x hx
        simpa using hbig x hx
      simp only [step, fireDueResets, intervalTick, hany, if_false, hfilter, tick,
        handleTimerExpiration]
      simp only [List.map_map]
      have hmap : ((List.range k).map
          ((fun d => d - 1000) ∘ fun i => cfg.restartAfterMinutes * 60 * 1000 - (k - 1 - i) * 1000))
          = (List.range k).map
            (fun i => cfg.restartAfterMinutes * 60 * 1000 - (k + 1 - 1 - i) * 1000) := by
        apply List.map_congr_left
        intro i hi
        have hi' := List.mem_range.mp hi
        simp only [Function.comp]
        omega
      rw [hmap]
      have hlast : cfg.restartAfterMinutes * 60 * 1000 - (k + 1 - 1 - k) * 1000
          = cfg.restartAfterMinutes * 60 * 1000 := by omega
      simp [List.range_succ, hlast]

/-- C10: from the expired state the interval keeps firing — each second
with only immature pending resets re-schedules one more reset and leaves
the timer at (0,0); iterating from a fresh expiration accumulates one
pending reset per second; the second in which a reset matures restores
the configured initial values and the (still active) interval ticks on
from them; and ticking continues normally afterwards with no new call to
`startTimer`. -/
theorem c10_expiration_keeps_ticking (cfg : TimerSettings) (pending : List Nat)
    (k : Nat) (m s : Int) (hall : ∀ p ∈ pending, ¬ p ≤ 1000)
    (hk : k ≤ 60 * cfg.restartAfterMinutes)
    (hinit : 0 < cfg.initialSeconds) (hs : 0 < s) :
    step cfg ⟨⟨0, 0⟩, pending⟩ =
      ⟨⟨0, 0⟩, pending.map (fun d => d - 1000) ++ [cfg.restartAfterMinutes * 60 * 1000]⟩
    ∧ (step cfg)^[k] ⟨⟨0, 0⟩, []⟩ =
        ⟨⟨0, 0⟩, (List.range k).map
          (fun i => cfg.restartAfterMinutes * 60 * 1000 - (k - 1 - i) * 1000)⟩
    ∧ (∀ p, p ≤ 1000 → step cfg ⟨⟨0, 0⟩, [p]⟩ =
        ⟨⟨cfg.initialMinutes, cfg.initialSeconds - 1⟩, []⟩)
    ∧ step cfg ⟨⟨m, s⟩, []⟩ = ⟨⟨m, s - 1⟩, []⟩ := by
  refine ⟨?_, step_iterate_expired cfg k hk, ?_, ?_⟩
  · have hany : pending.any (fun d => d ≤ 1000) = false := by
      rw [List.any_eq_false]
      intro x hx
      simpa using hall x hx
    have hfilter : pending.filter (fun d => 1000 < d) = pending := by
      rw [List.filter_eq_self]
      intro x hx
      have := hall x hx
      simp only [decide_eq_true_eq]
      omega
    simp [step, fireDueResets, intervalTick, hany, hfilter, tick, handleTimerExpiration]
  · intro p hp
    have : ¬ (0 : Int) < 0 := by omega
    simp [step, fireDueResets, intervalTick, hp, tick, hinit]
  · simp [step, fireDueResets, intervalTick, tick, hs]

/-- Witness for C10 with the default restart delay, two elapsed seconds
of expiration, a matured reset, and a running state. -/
theorem c10_expiration_keeps_ticking_witness :
    step ⟨28, 30, 1⟩ ⟨⟨0, 0⟩, [2000]⟩ = ⟨⟨0, 0⟩, [1000, 60000]⟩
    ∧ (step ⟨28, 30, 1⟩)^[2] ⟨⟨0, 0⟩, []⟩ =
        ⟨⟨0, 0⟩, (List.range 2).map (fun i => 60000 - (2 - 1 - i) * 1000)⟩
    ∧ (∀ p, p ≤ 1000 → step ⟨28, 30, 1⟩ ⟨⟨0, 0⟩, [p]⟩ = ⟨⟨28, 29⟩, []⟩)
    ∧ step ⟨28, 30, 1⟩ ⟨⟨5, 10⟩, []⟩ = ⟨⟨5, 9⟩, []⟩ :=
  c10_expiration_keeps_ticking ⟨28, 30, 1⟩ [2000] 2 5 10 (by decide) (by decide)
    (by decide) (by decide)


/-- Trimming a character list is idempotent. -/
theorem trimCL_idem (l : List Char) : trimCL (trimCL l) = trimCL l := by
  unfold trimCL
  have hA : List.dropWhile isWS (List.dropWhile isWS l) = List.dropWhile isWS l :=
    List.dropWhile_idempotent isWS l
  have hdw : List.dropWhile isWS (List.rdropWhile isWS (List.dropWhile isWS l)) =
      List.rdropWhile isWS (List.dropWhile isWS l) := by
    rw [List.dropWhile_eq_self_iff]
    intro hl
    have hpre := List.rdropWhile_prefix isWS (List.dropWhile isWS l)
    have hlen : 0 < (List.dropWhile isWS l).length :=
      Nat.lt_of_lt_of_le hl hpre.length_le
    have hget := @List.IsPrefix.getElem _ _ _ hpre 0 hl
    have hhead := (List.dropWhile_eq_self_iff).mp hA hlen
    simp only [List.get_eq_getElem] at hhead ⊢
    rw [hget]
    exact hhead
  rw [hdw, List.rdropWhile_idempotent]

/-- Trimming a string is idempotent. -/
theorem trimS_idem (s : String) : trimS (trimS s) = trimS s := by
  show String.mk (trimCL (String.toList (String.mk (trimCL s.toList)))) = _
  rw [show String.toList (String.mk (trimCL s.toList)) = trimCL s.toList from rfl,
    trimCL_idem]
  rfl

/-- C7: every row produced by the parser has a non-empty (and trimmed)
first field, every field of every row is already trimmed, and the
concrete examples hold: a simple line with a trailing newline gives one
row of four trimmed fields, a quoted comma stays inside its field, and
trailing blank lines produce no rows. -/
theorem c7_parseCSV_shape (text : String) (row : List String)
    (hrow : row ∈ parseCSV text) :
    (∃ f fs, row = f :: fs ∧ f ≠ "" ∧ trimS f = f)
    ∧ (∀ g ∈ row, trimS g = g)
    ∧ parseCSV "US,4th of July,2025-07-04,2025-07-04\n" =
        [["US", "4th of July", "2025-07-04", "2025-07-04"]]
    ∧ parseCSV "AU,\"Sale, Big!\",2025-01-26,2025-01-26" =
        [["AU", "Sale, Big!", "2025-01-26", "2025-01-26"]]
    ∧ parseCSV "US,a,b,c\n\n" = [["US", "a", "b", "c"]] := by
  unfold parseCSV at hrow
  obtain ⟨hmem, hkeep⟩ := List.mem_filter.mp hrow
  obtain ⟨line, -, hline⟩ := List.mem_map.mp hmem
  have htrim : ∀ g ∈ row, trimS g = g := by
    intro g hg
    rw [← hline] at hg
    obtain ⟨f0, -, rfl⟩ := List.mem_map.mp hg
    show String.mk (trimCL (String.toList (String.mk (trimCL f0)))) = _
    rw [show String.toList (String.mk (trimCL f0)) = trimCL f0 from rfl, trimCL_idem]
  refine ⟨?_, htrim, by decide, by decide, by decide⟩
  cases hr : row with
  | nil => rw [hr] at hkeep; exact absurd hkeep (by simp [keepRow])
  | cons f fs =>
      have hf : trimS f ≠ "" := by
        rw [hr] at hkeep
        simpa [keepRow] using hkeep
      have hff : trimS f = f := htrim f (by rw [hr]; exact List.mem_cons_self f fs)
      exact ⟨f, fs, rfl, by rw [← hff]; exact hf, hff⟩

/-- Witness for C7 on a concrete parsed document. -/
theorem c7_parseCSV_shape_witness :
    (∃ f fs, ["US", "4th of July", "2025-07-04", "2025-07-04"] = f :: fs
        ∧ f ≠ "" ∧ trimS f = f)
    ∧ (∀ g ∈ ["US", "4th of July", "2025-07-04", "2025-07-04"], trimS g = g) :=
  ⟨(c7_parseCSV_shape "US,4th of July,2025-07-04,2025-07-04\n"
      ["US", "4th of July", "2025-07-04", "2025-07-04"] (by decide)).1,
   (c7_parseCSV_shape "US,4th of July,2025-07-04,2025-07-04\n"
      ["US", "4th of July", "2025-07-04", "2025-07-04"] (by decide)).2.1⟩


/-- The scan of `getPromoText` is a first-match search on the country
field. -/
theorem promoLoop_eq_find (cc d : String) (l : List (List String)) :
    promoLoop cc d l =
      match l.find? (fun r => decide (r.head? = some cc)) with
      | some r => r.get? 1
      | none => some d := by
  induction l with
  | nil => rfl
  | cons row rest ih =>
      by_cases h : row.head? = some cc
      · simp [promoLoop, List.find?_cons, h]
      · simp [promoLoop, List.find?_cons, h, ih]

/-- C6: selection ignores the date entirely; absent data or a lone header
row yields the configured default text; otherwise the result is the
second field of the first row past the header whose first field equals
the country code (the date-range fields never gate the choice), and the
default when no row matches — in particular "ZZ" against the built-in
fallback rows gives the default. -/
theorem c6_getPromoText_selection (d cc : String) (date1 date2 : Int)
    (pd : Option (List (List String))) :
    getPromoText d cc date1 pd = getPromoText d cc date2 pd
    ∧ (pd = none → getPromoText d cc date1 pd = some d)
    ∧ (∀ rows, pd = some rows → rows.length ≤ 1 → getPromoText d cc date1 pd = some d)
    ∧ (∀ rows, pd = some rows → 1 < rows.length →
        getPromoText d cc date1 pd =
          match (rows.drop 1).find? (fun r => decide (r.head? = some cc)) with
          | some r => r.get? 1
          | none => some d)
    ∧ getPromoText d "ZZ" date1 (some getFallbackPromoData) = some d := by
  refine ⟨rfl, ?_, ?_, ?_, ?_⟩
  · intro h; rw [h]; rfl
  · intro rows h hlen
    rw [h]
    simp [getPromoText, hlen]
  · intro rows h hlen
    rw [h]
    have : ¬ rows.length ≤ 1 := by omega
    simp only [getPromoText, this, if_false]
    exact promoLoop_eq_find cc d (rows.drop 1)
  · rfl

/-- Witness for C6: the default branch on a lone header and the
first-match characterisation on the fallback rows. -/
theorem c6_getPromoText_selection_witness :
    getPromoText "Self-care Special" "US" 0 (some [["Country", "PromoText"]]) =
      some "Self-care Special"
    ∧ getPromoText "Self-care Special" "US" 0 (some getFallbackPromoData) =
        match (getFallbackPromoData.drop 1).find?
            (fun r => decide (r.head? = some "US")) with
        | some r => r.get? 1
        | none => some "Self-care Special" :=
  ⟨(c6_getPromoText_selection "Self-care Special" "US" 0 1
      (some [["Country", "PromoText"]])).2.2.1 [["Country", "PromoText"]] rfl (by decide),
   (c6_getPromoText_selection "Self-care Special" "US" 0 1
      (some getFallbackPromoData)).2.2.2.1 getFallbackPromoData rfl (by decide)⟩

/-- `cacheFresh` spelled out on a populated cache. -/
theorem cacheFresh_some (d : List (List String)) (t now : Int) (ht : t ≠ 0) :
    cacheFresh ⟨some d, some t⟩ now = decide (now - t < 3600000) := by
  simp [cacheFresh, ht]

/-- C2: with cached rows and a truthy stored timestamp, a call strictly
under one hour after the fetch returns the cached rows, touches nothing
and performs no request; a call one hour or later ignores the cached rows
— fetching (and re-populating the cache) when a data-source URL is
configured, falling back otherwise — and the 59-minute / 61-minute
instances behave accordingly. -/
theorem c2_cache_freshness (d : List (List String)) (t now : Int) (url : Option String)
    (net : FetchResult) (ht : t ≠ 0) :
    (now - t < 3600000 →
        fetchPromoData ⟨some d, some t⟩ now url net = (d, ⟨some d, some t⟩, false))
    ∧ (3600000 ≤ now - t → ∀ u, url = some u → u ≠ "" →
        (∀ body, net = .ok body →
            fetchPromoData ⟨some d, some t⟩ now url net =
              (parseCSV body, ⟨some (parseCSV body), some now⟩, true))
        ∧ (net = .err →
            fetchPromoData ⟨some d, some t⟩ now url net =
              (getFallbackPromoData, ⟨some d, some t⟩, true)))
    ∧ (3600000 ≤ now - t → (url = none ∨ url = some "") →
        fetchPromoData ⟨some d, some t⟩ now url net =
          (getFallbackPromoData, ⟨some d, some t⟩, false))
    ∧ fetchPromoData ⟨some d, some t⟩ (t + 59 * 60000) url net =
        (d, ⟨some d, some t⟩, false)
    ∧ (∀ u, url = some u → u ≠ "" →
        (fetchPromoData ⟨some d, some t⟩ (t + 61 * 60000) url net).2.2 = true) := by
  have hne : t ≠ 0 := ht
  refine ⟨?_, ?_, ?_, ?_, ?_⟩
  · intro h
    simp [fetchPromoData, cacheFresh, hne, h]
  · intro h u hu hne'
    have hstale : ¬ now - t < 3600000 := by omega
    subst hu
    constructor
    · intro body hb
      subst hb
      simp [fetchPromoData, cacheFresh, hne, hstale, fetchBranch, hne']
    · intro hb
      subst hb
      simp [fetchPromoData, cacheFresh, hne, hstale, fetchBranch, hne']
  · intro h hu
    have hstale : ¬ now - t < 3600000 := by omega
    rcases hu with hu | hu <;> subst hu <;>
      simp [fetchPromoData, cacheFresh, hne, hstale, fetchBranch]
  · have h59 : t + 59 * 60000 - t < 3600000 := by omega
    simp [fetchPromoData, cacheFresh, hne, h59]
  · intro u hu hne'
    have hstale : ¬ t + 61 * 60000 - t < 3600000 := by omega
    subst hu
    cases net <;> simp [fetchPromoData, cacheFresh, hne, hstale, fetchBranch, hne']

/-- Witness for C2 at a concrete cache state, both fresh at 59 minutes
and stale at 61 minutes. -/
theorem c2_cache_freshness_witness :
    fetchPromoData ⟨some [["Country"], ["US", "hi"]], some 1000⟩ (1000 + 59 * 60000)
        (some "https://example.com/promo.csv") .err =
      ([["Country"], ["US", "hi"]], ⟨some [["Country"], ["US", "hi"]], some 1000⟩, false)
    ∧ (fetchPromoData ⟨some [["Country"], ["US", "hi"]], some 1000⟩ (1000 + 61 * 60000)
        (some "https://example.com/promo.csv") .err).2.2 = true :=
  ⟨(c2_cache_freshness [["Country"], ["US", "hi"]] 1000 (1000 + 59 * 60000)
      (some "https://example.com/promo.csv") .err (by decide)).2.2.2.1,
   (c2_cache_freshness [["Country"], ["US", "hi"]] 1000 (1000 + 59 * 60000)
      (some "https://example.com/promo.csv") .err (by decide)).2.2.2.2
     "https://example.com/promo.csv" rfl (by decide)⟩

/-- C3: whenever the network is consulted and fails, the call resolves
with the built-in fallback rows and leaves the cache untouched (so the
next call retries the network); with no configured URL the call resolves
with the fallback rows, also leaving the cache untouched.  Resolution
(never rejection) is totality of `fetchPromoData`. -/
theorem c3_failure_fallback_no_cache (cache : PromoCache) (now : Int)
    (url : Option String) (u : String) (net : FetchResult)
    (hfresh : cacheFresh cache now = false) :
    (url = some u → u ≠ "" →
        fetchPromoData cache now url .err = (getFallbackPromoData, cache, true))
    ∧ ((url = none ∨ url = some "") →
        fetchPromoData cache now url net = (getFallbackPromoData, cache, false)) := by
  constructor
  · intro hu hne
    subst hu
    simp [fetchPromoData, hfresh, fetchBranch, hne]
  · intro hu
    rcases hu with hu | hu <;> subst hu <;> simp [fetchPromoData, hfresh, fetchBranch]

/-- Witness for C3 on an empty cache: a failed fetch falls back without
caching, and a missing URL falls back without caching. -/
theorem c3_failure_fallback_no_cache_witness :
    fetchPromoData ⟨none, none⟩ 5000 (some "https://example.com/promo.csv") .err =
      (getFallbackPromoData, ⟨none, none⟩, true)
    ∧ fetchPromoData ⟨none, none⟩ 5000 none .err = (getFallbackPromoData, ⟨none, none⟩, false) :=
  ⟨(c3_failure_fallback_no_cache ⟨none, none⟩ 5000
      (some "https://example.com/promo.csv") "https://example.com/promo.csv" .err
      (by decide)).1 rfl (by decide),
   (c3_failure_fallback_no_cache ⟨none, none⟩ 5000 none "" .err (by decide)).2
     (Or.inl rfl)⟩


/-- A successful anchored pattern match captures two characters. -/
theorem matchBillingAt_ne_empty (cs : List Char) (c : String)
    (h : matchBillingAt cs = some c) : c ≠ "" := by
  unfold matchBillingAt at h
  split at h
  · split at h
    · split at h
      · injection h with h'
        intro hc
        rw [hc] at h'
        have hdata := congrArg String.data h'
        simp at hdata
      · exact absurd h (by simp)
    · exact absurd h (by simp)
  · exact absurd h (by simp)

/-- A successful pattern match anywhere captures two characters. -/
theorem billingCountryMatchAux_ne_empty (cs : List Char) (c : String)
    (h : billingCountryMatchAux cs = some c) : c ≠ "" := by
  induction cs with
  | nil => exact absurd h (by simp [billingCountryMatchAux])
  | cons x rest ih =>
      unfold billingCountryMatchAux at h
      cases hm : matchBillingAt (x :: rest) with
      | some r =>
          rw [hm] at h
          injection h with h'
          exact h' ▸ matchBillingAt_ne_empty (x :: rest) r hm
      | none =>
          rw [hm] at h
          exact ih h

/-- The backup scan never yields the empty string. -/
theorem scanEntries_ne_empty (st : List (String × String)) (c : String)
    (h : scanEntries st = some c) : c ≠ "" := by
  induction st with
  | nil => exact absurd h (by simp [scanEntries])
  | cons kv rest ih =>
      obtain ⟨k, v⟩ := kv
      unfold scanEntries at h
      split at h
      · cases hm : billingCountryMatch v with
        | some r =>
            rw [hm] at h
            injection h with h'
            exact h' ▸ billingCountryMatchAux_ne_empty v.toList r hm
        | none => rw [hm] at h; exact ih h
      · exact ih h

/-- The checkout block never yields the empty string. -/
theorem checkoutExtract_ne_empty (jsonOk : String → Bool)
    (st : List (String × String)) (c : String)
    (h : checkoutExtract jsonOk st = some c) : c ≠ "" := by
  unfold checkoutExtract at h
  split at h
  · split at h
    · split at h
      · exact billingCountryMatchAux_ne_empty _ c h
      · exact absurd h (by simp)
    · exact absurd h (by simp)
  · exact absurd h (by simp)

/-- The session lookup never yields the empty string. -/
theorem getCountryFromSessionStorage_ne_empty (jsonOk : String → Bool)
    (st : List (String × String)) (c : String)
    (h : getCountryFromSessionStorage jsonOk st = some c) : c ≠ "" := by
  unfold getCountryFromSessionStorage at h
  cases hc : checkoutExtract jsonOk st with
  | some r =>
      rw [hc] at h
      injection h with h'
      exact h' ▸ checkoutExtract_ne_empty jsonOk st r hc
  | none =>
      rw [hc] at h
      exact scanEntries_ne_empty st c h


/-- C4 (counterexample): the claim's resolution order makes the session
stage, when the well-known checkout key is present, a function of that
key's value alone — the scan of the other entries is reserved for the
key-absent case, and the sources consulted before and after (header,
default) are fixed.  The code instead also scans all entries whenever the
checkout block extracts nothing: with the checkout key bound to a plain
empty object, adding an unrelated entry carrying a `billing_country`
marker changes the result from "US" to "FR". -/
theorem c4_scan_not_gated_on_key_absence : ¬ resolveDependsOnlyOnCheckoutValue := by
  intro h
  have h2 := h (fun _ => true) [(checkoutKey, "\x7b\x7d")]
    [(checkoutKey, "\x7b\x7d"), ("cart", "\x7b\"billing_country\": \"FR\"\x7d")]
    "\x7b\x7d" (by decide) (by decide)
  have e1 : getCountry (fun _ => true) [(checkoutKey, "\x7b\x7d")] = "US" := by decide
  have e2 : getCountry (fun _ => true)
      [(checkoutKey, "\x7b\x7d"), ("cart", "\x7b\"billing_country\": \"FR\"\x7d")]
      = "FR" := by decide
  rw [e1, e2] at h2
  exact absurd h2 (by decide)

/-- C4 (amended): `resolve()` always yields a code (totality): the header
signal is structurally absent; when the checkout key holds a truthy value
that parses as JSON and whose raw text matches the `billing_country`
pattern, the captured code is returned regardless of every other session
entry; whenever the session stage as a whole yields a code it is the
result; and with no session signal the default is "US". -/
theorem c4_country_resolution (jsonOk : String → Bool) (st : List (String × String)) :
    getCountryFromHeader = none
    ∧ (∀ v c, sessionGet st checkoutKey = some v → v ≠ "" → jsonOk v = true →
        billingCountryMatch v = some c → getCountry jsonOk st = c)
    ∧ (∀ c, getCountryFromSessionStorage jsonOk st = some c → getCountry jsonOk st = c)
    ∧ (getCountryFromSessionStorage jsonOk st = none → getCountry jsonOk st = "US") := by
  have hsession : ∀ c, getCountryFromSessionStorage jsonOk st = some c →
      getCountry jsonOk st = c := by
    intro c h
    have hne := getCountryFromSessionStorage_ne_empty jsonOk st c h
    simp [getCountry, getCountryFromHeader, truthy, h, hne]
  refine ⟨rfl, ?_, hsession, ?_⟩
  · intro v c hv hvne hj hm
    apply hsession
    unfold getCountryFromSessionStorage
    have : checkoutExtract jsonOk st = some c := by
      unfold checkoutExtract
      rw [hv]
      show (if v ≠ "" then if jsonOk v = true then billingCountryMatch v else none
            else none) = some c
      rw [if_pos hvne, if_pos hj, hm]
    rw [this]
  · intro h
    simp [getCountry, getCountryFromHeader, truthy, h]

/-- Witness for C4 (amended): a checkout payload carrying "DE" wins over
a later entry carrying "FR", and the empty storage resolves to "US". -/
theorem c4_country_resolution_witness :
    getCountry (fun _ => true)
      [(checkoutKey, "\x7b\"billing_country\": \"DE\"\x7d"),
       ("other", "\"billing_country\": \"FR\"")] = "DE"
    ∧ getCountry (fun _ => true) [] = "US" :=
  ⟨(c4_country_resolution (fun _ => true)
      [(checkoutKey, "\x7b\"billing_country\": \"DE\"\x7d"),
       ("other", "\"billing_country\": \"FR\"")]).2.1
      "\x7b\"billing_country\": \"DE\"\x7d" "DE" rfl (by decide) rfl (by decide),
   (c4_country_resolution (fun _ => true) []).2.2.2 rfl⟩

end HairqareTimer
